import Mathlib

/-!
Shallow embedding of the zig-toolchain version manager (src/main.go).

The Go program manages zig compiler versions: it parses version strings,
orders them, reconciles a remote index with local tarballs and the
currently-extracted install into one inventory, and downloads/activates
entries.  Pure logic is translated directly; filesystem and network
effects are represented by their observable inputs (directory listings,
index contents) and outputs (outcome values), and Go panics are modelled
as `Option.none` / explicit crash constructors.
-/

/-- Go struct `Version` (src/main.go).  Go `int` fields are modelled as `Int`
(values always fit, since they come from 32-bit bounded parses). -/
structure Version where
  major  : Int
  minor  : Int
  patch  : Int
  dev    : Bool
  build  : Int
  commit : String
deriving Repr, DecidableEq

/-- Go method `Version.equal`: dev flags must agree; (major, minor, patch)
must agree; build numbers compared only when both are dev; the commit hash
is never consulted. -/
def Version.equal (v other : Version) : Bool :=
  if v.dev || other.dev then
    if !(v.dev && other.dev) then
      false
    else
      v.major == other.major && v.minor == other.minor &&
        v.patch == other.patch && v.build == other.build
  else
    v.major == other.major && v.minor == other.minor && v.patch == other.patch

/-- Go method `Version.lessThan`: lexicographic on (major, minor, patch);
at an equal triple, two devs compare by build, a dev is never less than the
release with the same triple, and a release is less than any dev with the
same triple. -/
def Version.lessThan (v other : Version) : Bool :=
  if v.major == other.major then
    if v.minor == other.minor then
      if v.patch == other.patch then
        if v.dev && other.dev then
          decide (v.build < other.build)
        else if v.dev && !other.dev then
          false
        else if !v.dev && other.dev then
          true
        else
          false
      else
        decide (v.patch < other.patch)
    else
      decide (v.minor < other.minor)
  else
    decide (v.major < other.major)

/-- Go method `Version.moreThan` (negation of `lessThan`, i.e. ≥). -/
def Version.moreThan (v other : Version) : Bool := !(v.lessThan other)

/-- `lessThan` unfolded into a proposition, for arithmetic reasoning. -/
theorem lessThan_eq_true_iff (a b : Version) :
    a.lessThan b = true ↔
      (a.major < b.major ∨ (a.major = b.major ∧
        (a.minor < b.minor ∨ (a.minor = b.minor ∧
          (a.patch < b.patch ∨ (a.patch = b.patch ∧
            ((a.dev = true ∧ b.dev = true ∧ a.build < b.build) ∨
             (a.dev = false ∧ b.dev = true)))))))) := by
  obtain ⟨am, ai, ap, ad, ab, ac⟩ := a
  obtain ⟨bm, bi, bp, bd, bb, bc⟩ := b
  cases ad <;> cases bd <;>
    simp only [Version.lessThan, Bool.and_self, Bool.and_false, Bool.false_and,
      Bool.and_true, Bool.true_and, Bool.not_false, Bool.not_true, if_true,
      if_false, beq_iff_eq] <;>
    split_ifs <;> simp_all

/-- `equal` unfolded into a proposition, for arithmetic reasoning. -/
theorem equal_eq_true_iff (a b : Version) :
    a.equal b = true ↔
      (a.dev = b.dev ∧ a.major = b.major ∧ a.minor = b.minor ∧
        a.patch = b.patch ∧ (a.dev = true → a.build = b.build)) := by
  obtain ⟨am, ai, ap, ad, ab, ac⟩ := a
  obtain ⟨bm, bi, bp, bd, bb, bc⟩ := b
  cases ad <;> cases bd <;>
    simp only [Version.equal, Bool.or_self, Bool.or_false, Bool.false_or,
      Bool.or_true, Bool.true_or, Bool.and_self, Bool.and_false, Bool.false_and,
      Bool.and_true, Bool.true_and, Bool.not_false, Bool.not_true, if_true,
      if_false, beq_iff_eq, Bool.and_eq_true, and_assoc] <;>
    simp_all [and_assoc]

/-- C6: the comparison is a valid total order: for all Versions a, b, c,
exactly one of lessThan a b, equal a b, lessThan b a holds, and lessThan is
transitive. -/
theorem lessThan_total_order (a b c : Version) :
    ((a.lessThan b = true ∧ a.equal b = false ∧ b.lessThan a = false) ∨
     (a.lessThan b = false ∧ a.equal b = true ∧ b.lessThan a = false) ∨
     (a.lessThan b = false ∧ a.equal b = false ∧ b.lessThan a = true)) ∧
    (a.lessThan b = true → b.lessThan c = true → a.lessThan c = true) := by
  obtain ⟨am, ai, ap, ad, ab, ac⟩ := a
  obtain ⟨bm, bi, bp, bd, bb, bc⟩ := b
  obtain ⟨cm, ci, cp, cd, cb, cc⟩ := c
  cases ad <;> cases bd <;> cases cd <;>
    simp only [Bool.eq_false_iff, Ne, lessThan_eq_true_iff, equal_eq_true_iff] <;>
    simp <;> omega

/-- Witness for C6's transitivity hypothesis at concrete versions. -/
theorem lessThan_total_order_witness :
    (Version.mk 1 0 0 false 0 "").lessThan (Version.mk 1 1 0 false 0 "") = true ∧
    (Version.mk 1 1 0 false 0 "").lessThan (Version.mk 2 0 0 false 0 "") = true ∧
    (Version.mk 1 0 0 false 0 "").lessThan (Version.mk 2 0 0 false 0 "") = true := by
  refine ⟨by decide, by decide, ?_⟩
  exact (lessThan_total_order (Version.mk 1 0 0 false 0 "")
    (Version.mk 1 1 0 false 0 "") (Version.mk 2 0 0 false 0 "")).2
    (by decide) (by decide)

/-- C7 counterexample: a dev version is NOT lessThan the release with the
same (major, minor, patch) triple; the code orders the release below the
dev build, not above it. -/
theorem dev_not_lessThan_release :
    (Version.mk 1 2 3 true 7 "abc").lessThan (Version.mk 1 2 3 false 0 "") = false := by
  decide

/-- C7 (amended): at an equal (major, minor, patch) triple the code makes
the non-dev version strictly less than any dev version, and never the
reverse: the dev build is ordered above the release it precedes. -/
theorem release_lessThan_dev (M m p b : Int) (c : String) :
    (Version.mk M m p false 0 "").lessThan (Version.mk M m p true b c) = true ∧
    (Version.mk M m p true b c).lessThan (Version.mk M m p false 0 "") = false := by
  constructor <;> simp [Version.lessThan]

/-- C8: equality ignores the commit hash: two dev versions agreeing on
major, minor, patch and build are equal whatever their commit hashes; in
particular at the spec's concrete instance. -/
theorem equal_ignores_commit (M m p b : Int) (c₁ c₂ : String) :
    (Version.mk M m p true b c₁).equal (Version.mk M m p true b c₂) = true ∧
    (Version.mk 1 2 3 true 7 "aaa").equal (Version.mk 1 2 3 true 7 "bbb") = true := by
  constructor
  · simp [Version.equal]
  · decide

/-- Go `strings.Split` restricted to a single-character separator (the only
form the program uses, with separators "-", ".", "+", "/"): the list of
maximal separator-free chunks; never empty. -/
def splitOnChar (c : Char) : List Char → List (List Char)
  | [] => [[]]
  | x :: xs =>
    if x = c then
      [] :: splitOnChar c xs
    else
      match splitOnChar c xs with
      | [] => [[x]]
      | h :: t => (x :: h) :: t

theorem splitOnChar_ne_nil (c : Char) (xs : List Char) : splitOnChar c xs ≠ [] := by
  induction xs with
  | nil => simp [splitOnChar]
  | cons x xs ih =>
    rw [splitOnChar]
    split
    · simp
    · cases h : splitOnChar c xs with
      | nil => simp
      | cons hd tl => simp

theorem splitOnChar_of_not_mem (c : Char) (xs : List Char) (h : ∀ x ∈ xs, x ≠ c) :
    splitOnChar c xs = [xs] := by
  induction xs with
  | nil => rfl
  | cons x xs ih =>
    have hx : x ≠ c := h x (List.mem_cons_self x xs)
    have hrest := ih fun y hy => h y (List.mem_cons_of_mem x hy)
    rw [splitOnChar, if_neg hx, hrest]

theorem splitOnChar_append (c : Char) (xs ys : List Char) (h : ∀ x ∈ xs, x ≠ c) :
    splitOnChar c (xs ++ c :: ys) = xs :: splitOnChar c ys := by
  induction xs with
  | nil => simp [splitOnChar]
  | cons x xs ih =>
    have hx : x ≠ c := h x (List.mem_cons_self x xs)
    have hrest := ih fun y hy => h y (List.mem_cons_of_mem x hy)
    rw [List.cons_append, splitOnChar, if_neg hx, hrest]

/-- The decimal digit character for d < 10 (Go fmt "%d" digit). -/
def digitChar (d : Nat) : Char := Char.ofNat (48 + d)

/-- Numeric value of a digit character (Go strconv digit decoding). -/
def digitVal (c : Char) : Nat := c.toNat - 48

/-- Decimal value of a digit string, most significant first (the
accumulation loop inside Go strconv.ParseUint). -/
def digitsToNat (cs : List Char) : Nat := cs.foldl (fun a c => a * 10 + digitVal c) 0

/-- Canonical decimal rendering of a natural number (Go fmt "%d" / the
numerals appearing in well-formed version strings). -/
def natDigits (n : Nat) : List Char :=
  if n < 10 then [digitChar n]
  else natDigits (n / 10) ++ [digitChar (n % 10)]
decreasing_by omega

theorem digitVal_digitChar (d : Nat) (h : d < 10) : digitVal (digitChar d) = d := by
  interval_cases d <;> decide

theorem isDigit_digitChar (d : Nat) (h : d < 10) : (digitChar d).isDigit = true := by
  interval_cases d <;> decide

theorem natDigits_all_digit (n : Nat) : ∀ c ∈ natDigits n, c.isDigit = true := by
  induction n using Nat.strong_induction_on with
  | _ n ih =>
    rw [natDigits]
    split
    · next h =>
      intro c hc
      rw [List.mem_singleton] at hc
      subst hc
      exact isDigit_digitChar n h
    · next h =>
      intro c hc
      rcases List.mem_append.mp hc with h1 | h2
      · exact ih (n / 10) (by omega) c h1
      · rw [List.mem_singleton] at h2
        subst h2
        exact isDigit_digitChar (n % 10) (by omega)

theorem natDigits_ne_nil (n : Nat) : natDigits n ≠ [] := by
  rw [natDigits]
  split <;> simp

theorem digitsToNat_append_one (cs : List Char) (c : Char) :
    digitsToNat (cs ++ [c]) = digitsToNat cs * 10 + digitVal c := by
  simp [digitsToNat, List.foldl_append]

theorem digitsToNat_natDigits (n : Nat) : digitsToNat (natDigits n) = n := by
  induction n using Nat.strong_induction_on with
  | _ n ih =>
    rw [natDigits]
    split
    · next h =>
      show digitsToNat ([] ++ [digitChar n]) = n
      rw [digitsToNat_append_one, digitVal_digitChar n h]
      simp [digitsToNat]
    · next h =>
      rw [digitsToNat_append_one, ih (n / 10) (by omega),
        digitVal_digitChar (n % 10) (by omega)]
      omega

/-- Go `strconv.ParseInt(s, 10, 32)` as used by ParseVersion: returns the
parsed value and an error flag.  A syntax error (empty string, sign with no
digits, any non-digit) yields value 0 with the error flag set; an
out-of-range value yields the clamped int32 bound with the error flag set;
otherwise the exact value with no error. -/
def parseGoInt32 : List Char → Int × Bool
  | [] => (0, true)
  | c :: rest =>
    let signed :=
      if c = '+' then (false, rest)
      else if c = '-' then (true, rest)
      else (false, c :: rest)
    let neg := signed.1
    let digits := signed.2
    if digits = [] then (0, true)
    else if !digits.all Char.isDigit then (0, true)
    else
      let n := digitsToNat digits
      if neg then
        if n ≤ 2 ^ 31 then (-(n : Int), false) else (-(2 ^ 31 : Int), true)
      else
        if n ≤ 2 ^ 31 - 1 then ((n : Int), false) else ((2 ^ 31 - 1 : Int), true)

/-- Result of running Go `ParseVersion`: a parsed Version, a returned
error, or a crash (index-out-of-range panic inside the function). -/
inductive ParseOutcome where
  | ok (v : Version)
  | err
  | crash
deriving Repr, DecidableEq

/-- Go `ParseVersion` (src/main.go lines 165-199), faithfully including its
quirks: `err` is re-assigned by the major, minor and patch parses so only
the patch parse's error is checked; and the dev branch indexes the results
of the "." and "+" splits at position 1 without a length check, which
panics (crash) when the segment after "-" has no "." or the build segment
has no "+" following it. -/
def parseVersionChars (s : List Char) : ParseOutcome :=
  let sp := splitOnChar '-' s
  let sp2 := splitOnChar '.' (sp.headD [])
  if sp2.length ≠ 3 then .err
  else
    let majorR := parseGoInt32 (sp2.getD 0 [])
    let minorR := parseGoInt32 (sp2.getD 1 [])
    let patchR := parseGoInt32 (sp2.getD 2 [])
    if patchR.2 then .err
    else if 1 < sp.length then
      let t := splitOnChar '.' (sp.getD 1 [])
      if t.length < 2 then .crash
      else
        let u := splitOnChar '+' (t.getD 1 [])
        let buildR := parseGoInt32 (u.getD 0 [])
        if buildR.2 then .err
        else if u.length < 2 then .crash
        else .ok ⟨majorR.1, minorR.1, patchR.1, true, buildR.1, ⟨u.getD 1 []⟩⟩
    else .ok ⟨majorR.1, minorR.1, patchR.1, false, 0, ""⟩

/-- Go `ParseVersion` on a String. -/
def ParseVersion (s : String) : ParseOutcome := parseVersionChars s.data

/-- Go fmt "%d" on an int. -/
def renderInt (n : Int) : List Char :=
  if n < 0 then '-' :: natDigits n.natAbs else natDigits n.toNat

/-- Go method `Version.String`: "M.m.p", with "-dev-BUILD" appended for a
dev version; the commit hash is never printed. -/
def Version.string (v : Version) : String :=
  ⟨renderInt v.major ++ '.' :: renderInt v.minor ++ '.' :: renderInt v.patch ++
    (if v.dev then '-' :: 'd' :: 'e' :: 'v' :: '-' :: renderInt v.build else [])⟩

/-- C3 (the code at failing inputs): the parse-error contract fails. A
malformed MAJOR segment is silently accepted — Go re-assigns `err` on each
of the three numeric parses and checks it only once, after the patch parse,
so "x.1.2" yields Version 0.1.2 with no error; a dev tag missing the
"+commit" part crashes with an index-out-of-range panic instead of
returning an error.  Only the wrong-segment-count case errors as claimed. -/
theorem parseVersion_error_contract_fails :
    ParseVersion "x.1.2" = .ok ⟨0, 1, 2, false, 0, ""⟩ ∧
    ParseVersion "1.2.3-dev.5" = .crash ∧
    ParseVersion "1.2" = .err := by
  refine ⟨?_, ?_, ?_⟩ <;> decide

/-- C10 counterexample: an input whose first hyphen-delimited tail segment
has no dot need not crash — when the head fails the three-dot-segment
check, ParseVersion returns an error before reaching the unchecked index. -/
theorem parseVersion_dashed_input_errors :
    ParseVersion "a-b" = .err ∧ ParseVersion "a-b" ≠ .crash := by
  refine ⟨by decide, by decide⟩

theorem char_ne_of_isDigit {x c : Char} (hx : x.isDigit = true)
    (hc : c.isDigit = false) : x ≠ c := by
  intro h
  subst h
  rw [hx] at hc
  cases hc

/-- Commit-hash characters (hexadecimal digits, as in the upstream index's
commit hashes). -/
def isHexChar (c : Char) : Bool :=
  c.isDigit || ('a' ≤ c && c ≤ 'f') || ('A' ≤ c && c ≤ 'F')

theorem char_ne_of_isHexChar {x c : Char} (hx : isHexChar x = true)
    (hc : isHexChar c = false) : x ≠ c := by
  intro h
  subst h
  rw [hx] at hc
  cases hc

theorem natDigits_not_mem (n : Nat) (c : Char) (hc : c.isDigit = false) :
    ∀ x ∈ natDigits n, x ≠ c :=
  fun x hx => char_ne_of_isDigit (natDigits_all_digit n x hx) hc

/-- Parsing the canonical rendering of an in-range natural recovers it. -/
theorem parseGoInt32_natDigits (n : Nat) (h : n ≤ 2 ^ 31 - 1) :
    parseGoInt32 (natDigits n) = ((n : Int), false) := by
  cases hnd : natDigits n with
  | nil => exact absurd hnd (natDigits_ne_nil n)
  | cons d ds =>
    have hall : ∀ c ∈ natDigits n, c.isDigit = true := natDigits_all_digit n
    have hd : d.isDigit = true := hall d (by rw [hnd]; exact List.mem_cons_self d ds)
    have hdplus : ¬(d = '+') := char_ne_of_isDigit hd (by decide)
    have hdminus : ¬(d = '-') := char_ne_of_isDigit hd (by decide)
    have hvalue : digitsToNat (d :: ds) = n := by rw [← hnd, digitsToNat_natDigits]
    have hall2 : (d :: ds).all Char.isDigit = true := by
      rw [List.all_eq_true]
      intro c hcm
      exact hall c (by rw [hnd]; exact hcm)
    have h' : n ≤ 2147483647 := by omega
    simp [parseGoInt32, hdplus, hdminus, hall2, hvalue, h']

/-- The release grammar: MAJOR.MINOR.PATCH with canonical decimal
numerals, as a character list (parenthesised in `xs ++ sep :: ys` shape). -/
def releaseChars (M m p : Nat) : List Char :=
  natDigits M ++ ('.' :: (natDigits m ++ ('.' :: natDigits p)))

/-- The release grammar as a String. -/
def releaseForm (M m p : Nat) : String := ⟨releaseChars M m p⟩

/-- The dev grammar: MAJOR.MINOR.PATCH-dev.BUILD+COMMIT with canonical
decimal numerals, as a character list. -/
def devChars (M m p B : Nat) (commit : List Char) : List Char :=
  releaseChars M m p ++ ('-' :: (['d', 'e', 'v'] ++ ('.' :: (natDigits B ++ ('+' :: commit)))))

/-- The dev grammar as a String. -/
def devForm (M m p B : Nat) (commit : List Char) : String := ⟨devChars M m p B commit⟩

/-- The display form of a dev version: MAJOR.MINOR.PATCH-dev-BUILD, the
commit hash dropped. -/
def devDisplayForm (M m p B : Nat) : String :=
  ⟨releaseChars M m p ++ ('-' :: (['d', 'e', 'v'] ++ ('-' :: natDigits B)))⟩

theorem parseVersion_mk (cs : List Char) : ParseVersion ⟨cs⟩ = parseVersionChars cs := rfl

theorem not_mem_cons_sep {c y : Char} {ys : List Char} (h1 : y ≠ c)
    (h2 : ∀ x ∈ ys, x ≠ c) : ∀ x ∈ y :: ys, x ≠ c := by
  intro x hx
  rcases List.mem_cons.mp hx with rfl | hm
  · exact h1
  · exact h2 x hm

theorem not_mem_append_sep {c : Char} {xs ys : List Char} (h1 : ∀ x ∈ xs, x ≠ c)
    (h2 : ∀ x ∈ ys, x ≠ c) : ∀ x ∈ xs ++ ys, x ≠ c := by
  intro x hx
  rcases List.mem_append.mp hx with hm | hm
  · exact h1 x hm
  · exact h2 x hm

theorem releaseChars_not_mem (M m p : Nat) (c : Char) (hc : c.isDigit = false)
    (hdot : c ≠ '.') : ∀ x ∈ releaseChars M m p, x ≠ c :=
  not_mem_append_sep (natDigits_not_mem M c hc)
    (not_mem_cons_sep hdot.symm
      (not_mem_append_sep (natDigits_not_mem m c hc)
        (not_mem_cons_sep hdot.symm (natDigits_not_mem p c hc))))

theorem splitDot_releaseChars (M m p : Nat) :
    splitOnChar '.' (releaseChars M m p) = [natDigits M, natDigits m, natDigits p] := by
  rw [releaseChars, splitOnChar_append '.' (natDigits M) _ (natDigits_not_mem M '.' (by decide)),
    splitOnChar_append '.' (natDigits m) _ (natDigits_not_mem m '.' (by decide)),
    splitOnChar_of_not_mem '.' (natDigits p) (natDigits_not_mem p '.' (by decide))]

theorem parse_releaseChars (M m p : Nat) (hM : M ≤ 2 ^ 31 - 1) (hm : m ≤ 2 ^ 31 - 1)
    (hp : p ≤ 2 ^ 31 - 1) :
    parseVersionChars (releaseChars M m p) = .ok ⟨(M : Int), (m : Int), (p : Int), false, 0, ""⟩ := by
  have hsp : splitOnChar '-' (releaseChars M m p) = [releaseChars M m p] :=
    splitOnChar_of_not_mem '-' _ (releaseChars_not_mem M m p '-' (by decide) (by decide))
  simp [parseVersionChars, hsp, splitDot_releaseChars, parseGoInt32_natDigits M hM,
    parseGoInt32_natDigits m hm, parseGoInt32_natDigits p hp]

theorem parse_devChars (M m p B : Nat) (commit : List Char)
    (hM : M ≤ 2 ^ 31 - 1) (hm : m ≤ 2 ^ 31 - 1) (hp : p ≤ 2 ^ 31 - 1)
    (hB : B ≤ 2 ^ 31 - 1) (hc : ∀ ch ∈ commit, isHexChar ch = true) :
    parseVersionChars (devChars M m p B commit) =
      .ok ⟨(M : Int), (m : Int), (p : Int), true, (B : Int), ⟨commit⟩⟩ := by
  have hcDash : ∀ x ∈ commit, x ≠ '-' := fun x hx =>
    char_ne_of_isHexChar (hc x hx) (by decide)
  have hcDot : ∀ x ∈ commit, x ≠ '.' := fun x hx =>
    char_ne_of_isHexChar (hc x hx) (by decide)
  have hcPlus : ∀ x ∈ commit, x ≠ '+' := fun x hx =>
    char_ne_of_isHexChar (hc x hx) (by decide)
  have hsp : splitOnChar '-' (devChars M m p B commit) =
      [releaseChars M m p, ['d', 'e', 'v'] ++ ('.' :: (natDigits B ++ ('+' :: commit)))] := by
    rw [devChars,
      splitOnChar_append '-' _ _ (releaseChars_not_mem M m p '-' (by decide) (by decide)),
      splitOnChar_of_not_mem '-' _
        (not_mem_append_sep (by decide)
          (not_mem_cons_sep (by decide)
            (not_mem_append_sep (natDigits_not_mem B '-' (by decide))
              (not_mem_cons_sep (by decide) hcDash))))]
  have htail : splitOnChar '.' ('d' :: 'e' :: 'v' :: '.' :: (natDigits B ++ ('+' :: commit))) =
      [['d', 'e', 'v'], natDigits B ++ ('+' :: commit)] := by
    have hshape : ('d' :: 'e' :: 'v' :: '.' :: (natDigits B ++ ('+' :: commit))) =
        (['d', 'e', 'v'] ++ ('.' :: (natDigits B ++ ('+' :: commit)))) := by simp
    rw [hshape, splitOnChar_append '.' _ _ (by decide),
      splitOnChar_of_not_mem '.' _
        (not_mem_append_sep (natDigits_not_mem B '.' (by decide))
          (not_mem_cons_sep (by decide) hcDot))]
  have hplus : splitOnChar '+' (natDigits B ++ ('+' :: commit)) = [natDigits B, commit] := by
    rw [splitOnChar_append '+' _ _ (natDigits_not_mem B '+' (by decide)),
      splitOnChar_of_not_mem '+' _ hcPlus]
  simp [parseVersionChars, hsp, splitDot_releaseChars, htail, hplus,
    parseGoInt32_natDigits M hM, parseGoInt32_natDigits m hm,
    parseGoInt32_natDigits p hp, parseGoInt32_natDigits B hB]

theorem renderInt_nonneg (n : Int) (h : 0 ≤ n) : renderInt n = natDigits n.toNat := by
  rw [renderInt, if_neg (by omega)]

/-- Displaying a non-dev version built from naturals gives the canonical
release form. -/
theorem string_release (M m p : Nat) :
    Version.string ⟨(M : Int), (m : Int), (p : Int), false, 0, ""⟩ = releaseForm M m p := by
  simp [Version.string, releaseForm, releaseChars,
    renderInt_nonneg _ (Int.natCast_nonneg M), renderInt_nonneg _ (Int.natCast_nonneg m),
    renderInt_nonneg _ (Int.natCast_nonneg p)]

/-- Displaying a dev version built from naturals gives the display form
with the commit hash dropped. -/
theorem string_dev (M m p B : Nat) (c : String) :
    Version.string ⟨(M : Int), (m : Int), (p : Int), true, (B : Int), c⟩ =
      devDisplayForm M m p B := by
  simp [Version.string, devDisplayForm, releaseChars,
    renderInt_nonneg _ (Int.natCast_nonneg M), renderInt_nonneg _ (Int.natCast_nonneg m),
    renderInt_nonneg _ (Int.natCast_nonneg p), renderInt_nonneg _ (Int.natCast_nonneg B)]

/-- C9: parse then display round-trips: every valid release-form string
MAJOR.MINOR.PATCH (canonical in-range numerals) parses to the plain
version, which displays back as the same string with no dev suffix; every
valid dev-form string MAJOR.MINOR.PATCH-dev.BUILD+COMMIT parses to the dev
version, which displays as MAJOR.MINOR.PATCH-dev-BUILD with the commit
hash dropped. -/
theorem parse_display_round_trip (M m p B : Nat) (commit : List Char)
    (hM : M ≤ 2 ^ 31 - 1) (hm : m ≤ 2 ^ 31 - 1) (hp : p ≤ 2 ^ 31 - 1)
    (hB : B ≤ 2 ^ 31 - 1) (hc : ∀ ch ∈ commit, isHexChar ch = true) :
    (ParseVersion (releaseForm M m p) =
        .ok ⟨(M : Int), (m : Int), (p : Int), false, 0, ""⟩ ∧
      Version.string ⟨(M : Int), (m : Int), (p : Int), false, 0, ""⟩ =
        releaseForm M m p) ∧
    (ParseVersion (devForm M m p B commit) =
        .ok ⟨(M : Int), (m : Int), (p : Int), true, (B : Int), ⟨commit⟩⟩ ∧
      Version.string ⟨(M : Int), (m : Int), (p : Int), true, (B : Int), ⟨commit⟩⟩ =
        devDisplayForm M m p B) :=
  ⟨⟨parse_releaseChars M m p hM hm hp, string_release M m p⟩,
   ⟨parse_devChars M m p B commit hM hm hp hB hc, string_dev M m p B ⟨commit⟩⟩⟩

/-- Witness for C9 at 0.10.1 and 0.11.0-dev.1234+abc123de. -/
theorem parse_display_round_trip_witness :
    ParseVersion (releaseForm 0 10 1) = .ok ⟨0, 10, 1, false, 0, ""⟩ ∧
    ParseVersion (devForm 0 11 0 1234 ['a', 'b', 'c', '1', '2', '3', 'd', 'e']) =
      .ok ⟨0, 11, 0, true, 1234, ⟨['a', 'b', 'c', '1', '2', '3', 'd', 'e']⟩⟩ :=
  ⟨(parse_display_round_trip 0 10 1 1234 ['a', 'b', 'c', '1', '2', '3', 'd', 'e']
      (by decide) (by decide) (by decide) (by decide) (by decide)).1.1,
   (parse_display_round_trip 0 11 0 1234 ['a', 'b', 'c', '1', '2', '3', 'd', 'e']
      (by decide) (by decide) (by decide) (by decide) (by decide)).2.1⟩

theorem parse_devDisplay_crash (M m p B : Nat) (hp : p ≤ 2 ^ 31 - 1) :
    ParseVersion (devDisplayForm M m p B) = .crash := by
  have hshape : (releaseChars M m p ++ ('-' :: (['d', 'e', 'v'] ++ ('-' :: natDigits B)))) =
      (releaseChars M m p ++ '-' :: 'd' :: 'e' :: 'v' :: '-' :: natDigits B) := by simp
  have hsp : splitOnChar '-'
        (releaseChars M m p ++ '-' :: 'd' :: 'e' :: 'v' :: '-' :: natDigits B) =
      [releaseChars M m p, ['d', 'e', 'v'], natDigits B] := by
    rw [← hshape,
      splitOnChar_append '-' _ _ (releaseChars_not_mem M m p '-' (by decide) (by decide)),
      splitOnChar_append '-' _ _ (by decide),
      splitOnChar_of_not_mem '-' _ (natDigits_not_mem B '-' (by decide))]
  have hdev3 : splitOnChar '.' (['d', 'e', 'v'] : List Char) = [['d', 'e', 'v']] := by decide
  show parseVersionChars
      (releaseChars M m p ++ ('-' :: (['d', 'e', 'v'] ++ ('-' :: natDigits B)))) = .crash
  rw [hshape]
  simp [parseVersionChars, hsp, splitDot_releaseChars, hdev3, parseGoInt32_natDigits p hp]

/-- C10 (amended): ParseVersion is not total, but the crash region is
narrower than claimed: an input crashes when its hyphen-head has exactly
three dot segments whose third parses cleanly AND its first
hyphen-delimited tail segment has no dot; hyphenated inputs failing the
earlier checks return an error instead.  In particular the tool's own
display form of any dev version (nonnegative in-range fields) crashes when
parsed back. -/
theorem parseVersion_not_total_on_dev_display (s : String) (v : Version)
    (h3 : (splitOnChar '.' ((splitOnChar '-' s.data).headD [])).length = 3)
    (hps : (parseGoInt32 ((splitOnChar '.' ((splitOnChar '-' s.data).headD [])).getD 2 [])).2
      = false)
    (hlen : 1 < (splitOnChar '-' s.data).length)
    (hnodot : (splitOnChar '.' ((splitOnChar '-' s.data).getD 1 [])).length < 2)
    (hvdev : v.dev = true) (hvM : 0 ≤ v.major) (hvm : 0 ≤ v.minor)
    (hvp : 0 ≤ v.patch) (hvp2 : v.patch ≤ 2 ^ 31 - 1) (hvb : 0 ≤ v.build) :
    ParseVersion s = .crash ∧ ParseVersion v.string = .crash := by
  constructor
  · simp at h3 hps hlen hnodot
    simp [h3, hlen] at hps hnodot
    simp [ParseVersion, parseVersionChars, h3, hps, hlen, hnodot]
  · obtain ⟨M, m, p, d, b, c⟩ := v
    dsimp only at hvdev hvM hvm hvp hvp2 hvb
    subst hvdev
    have e1 : M = ((M.toNat : Nat) : Int) := by omega
    have e2 : m = ((m.toNat : Nat) : Int) := by omega
    have e3 : p = ((p.toNat : Nat) : Int) := by omega
    have e4 : b = ((b.toNat : Nat) : Int) := by omega
    rw [e1, e2, e3, e4, string_dev M.toNat m.toNat p.toNat b.toNat c]
    exact parse_devDisplay_crash M.toNat m.toNat p.toNat b.toNat (by omega)

/-- Witness for C10's amended theorem at the display form 0.11.0-dev-1234. -/
theorem parseVersion_not_total_witness :
    ParseVersion "0.11.0-dev-1234" = .crash ∧
    ParseVersion (Version.string ⟨0, 11, 0, true, 1234, "abc123de"⟩) = .crash :=
  parseVersion_not_total_on_dev_display "0.11.0-dev-1234"
    ⟨0, 11, 0, true, 1234, "abc123de"⟩ (by decide) (by decide) (by decide) (by decide)
    (by decide) (by decide) (by decide) (by decide) (by decide) (by decide)

/-- Go struct `Item` (a release catalog entry). -/
structure Item where
  version    : Version
  downloaded : Bool
  current    : Bool
  indexed    : Bool
  master     : Bool
  localPath  : String
  remoteUrl  : String
deriving Repr, DecidableEq

/-- Go struct `ZigIndexFileEntry`. -/
structure ZigIndexFileEntry where
  tarball : String
  shasum  : String
  size    : String
deriving Repr, DecidableEq

/-- Go struct `ZigIndexEntry`, restricted to the fields
`GetFileEntryForHost` can return (the src, bootstrap, riscv64 and powerpc
descriptors and the metadata strings are decoded but never read by the
program's logic). -/
structure ZigIndexEntry where
  version : String
  x86_64_macos : Option ZigIndexFileEntry
  aarch64_macos : Option ZigIndexFileEntry
  x86_64_linux : Option ZigIndexFileEntry
  aarch64_linux : Option ZigIndexFileEntry
  x86_linux : Option ZigIndexFileEntry
  x86_64_windows : Option ZigIndexFileEntry
  aarch64_windows : Option ZigIndexFileEntry
  x86_windows : Option ZigIndexFileEntry
deriving Repr, DecidableEq

/-- Go method `ZigIndexEntry.GetFileEntryForHost`, with the host OS and
architecture tags (the results of getHostOs / getHostArch) passed in
explicitly.  The outer `none` models the trailing panic for an unsupported
OS/architecture pair; `some none` is a nil descriptor for a supported
host. -/
def GetFileEntryForHost (osTag archTag : String) (z : ZigIndexEntry) :
    Option (Option ZigIndexFileEntry) :=
  if osTag = "macos" then
    if archTag = "aarch64" then some z.aarch64_macos
    else if archTag = "x86-64" then some z.x86_64_macos
    else none
  else if osTag = "linux" then
    if archTag = "aarch64" then some z.aarch64_linux
    else if archTag = "x86-64" then some z.x86_64_linux
    else if archTag = "x86" then some z.x86_linux
    else none
  else if osTag = "windows" then
    if archTag = "aarch64" then some z.aarch64_windows
    else if archTag = "x86-64" then some z.x86_64_windows
    else if archTag = "x86" then some z.x86_windows
    else none
  else none

/-- Go `localDirPath`: HOME/.zig-toolchain/<segments>, with the user home
directory abstracted as "~" (no claim depends on its value). -/
def localDirPath (ps : List String) : String :=
  String.intercalate "/" ("~" :: ".zig-toolchain" :: ps)

/-- Go `localTarballPathFromUrl`: the tarball-cache path for the final
"/"-segment of the URL. -/
def localTarballPathFromUrl (url : String) : String :=
  localDirPath ["tarballs", ⟨(splitOnChar '/' url.data).getLastD []⟩]

/-- Go method `AppState.GetItemByVersion`: the first Item whose version
equals v under `Version.equal`. -/
def GetItemByVersion (items : List Item) (v : Version) : Option Item :=
  items.find? fun it => it.version.equal v

/-- One record of the remote-index fold in `AppState.run`: a record with
no descriptor for the host is skipped; the version string is the record's
own, or the catalog key when the record's is empty, and `master` is set
exactly when the record's own version string is non-empty; a parse failure
panics (`none`); otherwise a new Item is appended with indexed=true, the
remote URL, and the local path derived from the URL. -/
def foldRemoteEntry (osTag archTag : String) (items : List Item)
    (k : String) (e : ZigIndexEntry) : Option (List Item) :=
  match GetFileEntryForHost osTag archTag e with
  | none => none
  | some none => some items
  | some (some fe) =>
    let vm := if e.version = "" then (k, false) else (e.version, true)
    match ParseVersion vm.1 with
    | .ok v =>
      some (items ++ [{ version := v, downloaded := false, current := false,
                        indexed := true, master := vm.2,
                        localPath := localTarballPathFromUrl fe.tarball,
                        remoteUrl := fe.tarball }])
    | _ => none

/-- The remote-index fold over the catalog records (Go iterates a map;
the iteration order is taken as given by the list). -/
def foldRemote (osTag archTag : String) :
    List (String × ZigIndexEntry) → List Item → Option (List Item)
  | [], items => some items
  | (k, e) :: rest, items =>
    match foldRemoteEntry osTag archTag items k e with
    | none => none
    | some items2 => foldRemote osTag archTag rest items2

/-- Go `path.Ext`: the suffix starting at the final dot, empty when there
is no dot (the names handled contain no slash). -/
def pathExt (name : String) : String :=
  let sp := splitOnChar '.' name.data
  if 2 ≤ sp.length then ⟨'.' :: sp.getLastD []⟩ else ""

/-- The version tag embedded in a tarball file name as `AppState.run`
extracts it: strip the last two dot-extensions, split on "-", re-join the
segments from index 3 on.  Fewer than three hyphen segments is an
out-of-range slice in Go (crash). -/
def tarballVersion (name : String) : ParseOutcome :=
  let sp := splitOnChar '.' name.data
  let base := List.intercalate ['.'] (sp.take (sp.length - 2))
  let sp3 := splitOnChar '-' base
  if sp3.length < 3 then .crash
  else parseVersionChars (List.intercalate ['-'] (sp3.drop 3))

/-- The in-place update done by the tarball fold when `GetItemByVersion`
finds a match: mark the first Item whose version equals v downloaded and
overwrite its localPath with the discovered path p; append a fresh
unindexed downloaded Item when none matches. -/
def markDownloaded (items : List Item) (v : Version) (p : String) : List Item :=
  match items with
  | [] => [{ version := v, downloaded := true, current := false, indexed := false,
             master := false, localPath := p, remoteUrl := "" }]
  | it :: rest =>
    if it.version.equal v then { it with downloaded := true, localPath := p } :: rest
    else it :: markDownloaded rest v p

/-- One entry of the tarball-directory fold in `AppState.run`: non-".xz"
names are skipped; a version-tag parse failure or crash panics (`none`);
otherwise the inventory is updated via `markDownloaded` with the
discovered file's path. -/
def foldTarballEntry (items : List Item) (name : String) : Option (List Item) :=
  if pathExt name = ".xz" then
    match tarballVersion name with
    | .ok v => some (markDownloaded items v (localDirPath ["tarballs", name]))
    | _ => none
  else some items

/-- The tarball-directory fold over the directory listing. -/
def foldTarballs : List Item → List String → Option (List Item)
  | items, [] => some items
  | items, name :: rest =>
    match foldTarballEntry items name with
    | none => none
    | some items2 => foldTarballs items2 rest

/-- Mark the first Item whose version equals v as current; `none` when no
Item matches (Go panics "current version is not downloaded!"). -/
def markCurrent (items : List Item) (v : Version) : Option (List Item) :=
  match items with
  | [] => none
  | it :: rest =>
    if it.version.equal v then some ({ it with current := true } :: rest)
    else (markCurrent rest v).map fun l => it :: l

/-- Go `strings.HasPrefix` on character lists (first argument the string,
second the candidate prefix). -/
def hasPrefixChars : List Char → List Char → Bool
  | _, [] => true
  | [], _ :: _ => false
  | x :: xs, y :: ys => x = y && hasPrefixChars xs ys

/-- The current-install fold in `AppState.run`: the first directory entry
(name, isDir pair) whose name starts with "zig" and is a directory has its
version tag (hyphen segments from index 3 on) parsed and the matching Item
marked current, then the loop breaks.  A version-tag slice out of range, a
parse failure, or an unmatched version panics (`none`). -/
def foldCurrent (items : List Item) : List (String × Bool) → Option (List Item)
  | [] => some items
  | (name, isDir) :: rest =>
    if hasPrefixChars name.data ['z', 'i', 'g'] && isDir then
      let sp := splitOnChar '-' name.data
      if sp.length < 3 then none
      else
        match parseVersionChars (List.intercalate ['-'] (sp.drop 3)) with
        | .ok v => markCurrent items v
        | _ => none
    else foldCurrent items rest

/-- The three reconciliation folds of `AppState.run` in order (remote
index, tarball directory, current directory).  `none` models a process
abort.  The final sort only permutes the inventory and is left out; every
claim below is stated per item, invariant under permutation. -/
def reconcile (osTag archTag : String) (remote : List (String × ZigIndexEntry))
    (tarballs : List String) (currentDir : List (String × Bool)) :
    Option (List Item) :=
  match foldRemote osTag archTag remote [] with
  | none => none
  | some a1 =>
    match foldTarballs a1 tarballs with
    | none => none
    | some a2 => foldCurrent a2 currentDir

/-- Observable outcome of `AppState.commandDownloadItem`. -/
inductive DownloadOutcome where
  | alreadyDownloaded
  | fatalNotIndexed
  | fetched
deriving Repr, DecidableEq

/-- Go `AppState.commandDownloadItem`: the downloaded check short-circuits
first ("Tarball already downloaded!", normal return); only a
not-yet-downloaded, unindexed item is rejected fatally ("Item not
indexed!", exit 1); otherwise the tarball is fetched and the item marked
downloaded. -/
def commandDownloadItem (it : Item) : DownloadOutcome × Item :=
  if it.downloaded then (.alreadyDownloaded, it)
  else if !it.indexed then (.fatalNotIndexed, it)
  else (.fetched, { it with downloaded := true })

/-- A catalog record shaped like the real index's release records: empty
version string, one descriptor for linux x86-64. -/
def releaseRecord : ZigIndexEntry :=
  { version := "", x86_64_macos := none, aarch64_macos := none,
    x86_64_linux :=
      some ⟨"https://ziglang.org/download/0.11.0/zig-linux-x86_64-0.11.0.tar.xz", "sha", "sz"⟩,
    aarch64_linux := none, x86_linux := none, x86_64_windows := none,
    aarch64_windows := none, x86_windows := none }

/-- C1 counterexample: a catalog record whose own version string is empty
(keyed "0.11.0", as release records are) produces an Item with
master=false — not master=true as the claim states — though the key does
supply the version string. -/
theorem remote_fold_empty_version_not_master :
    foldRemoteEntry "linux" "x86-64" [] "0.11.0" releaseRecord =
      some [{ version := ⟨0, 11, 0, false, 0, ""⟩, downloaded := false,
              current := false, indexed := true, master := false,
              localPath := "~/.zig-toolchain/tarballs/zig-linux-x86_64-0.11.0.tar.xz",
              remoteUrl := "https://ziglang.org/download/0.11.0/zig-linux-x86_64-0.11.0.tar.xz" }] := by
  decide

/-- C1 (amended): in the remote index fold, for a record with a descriptor
for the host: an empty record version string means the catalog key
supplies the version string and master=false; a non-empty record version
string is itself parsed and master=true. -/
theorem remote_fold_master_iff_nonempty_version (osTag archTag k : String)
    (e : ZigIndexEntry) (fe : ZigIndexFileEntry) (items : List Item) (v : Version)
    (hfe : GetFileEntryForHost osTag archTag e = some (some fe)) :
    (e.version = "" → ParseVersion k = .ok v →
      foldRemoteEntry osTag archTag items k e =
        some (items ++ [{ version := v, downloaded := false, current := false,
                          indexed := true, master := false,
                          localPath := localTarballPathFromUrl fe.tarball,
                          remoteUrl := fe.tarball }])) ∧
    (e.version ≠ "" → ParseVersion e.version = .ok v →
      foldRemoteEntry osTag archTag items k e =
        some (items ++ [{ version := v, downloaded := false, current := false,
                          indexed := true, master := true,
                          localPath := localTarballPathFromUrl fe.tarball,
                          remoteUrl := fe.tarball }])) := by
  constructor
  · intro he hp
    simp [foldRemoteEntry, hfe, he, hp]
  · intro he hp
    simp [foldRemoteEntry, hfe, he, hp]

/-- Witness for C1's amended theorem: the empty-version branch at the
concrete release record. -/
theorem remote_fold_master_iff_witness :
    foldRemoteEntry "linux" "x86-64" [] "0.11.0" releaseRecord =
      some ([] ++ [{ version := ⟨0, 11, 0, false, 0, ""⟩, downloaded := false,
                     current := false, indexed := true, master := false,
                     localPath := localTarballPathFromUrl
                       "https://ziglang.org/download/0.11.0/zig-linux-x86_64-0.11.0.tar.xz",
                     remoteUrl :=
                       "https://ziglang.org/download/0.11.0/zig-linux-x86_64-0.11.0.tar.xz" }]) :=
  (remote_fold_master_iff_nonempty_version "linux" "x86-64" "0.11.0" releaseRecord
    ⟨"https://ziglang.org/download/0.11.0/zig-linux-x86_64-0.11.0.tar.xz", "sha", "sz"⟩
    [] ⟨0, 11, 0, false, 0, ""⟩ rfl).1 rfl (by decide)

/-- C2 (the code at the failing state): version 0.11.0 present only in the
remote index (indexed=true, downloaded=false), no tarball on disk, and a
current-install directory named for 0.11.0: reconciliation succeeds,
marking the item current while it stays not downloaded — the claimed
invariant current=true → downloaded=true fails exactly in the case the
claim singles out.  (The code's own panic message "current version is not
downloaded!" fires only when the version is absent altogether.) -/
theorem reconcile_current_not_downloaded :
    reconcile "linux" "x86-64" [("0.11.0", releaseRecord)] []
        [("zig-linux-x86_64-0.11.0", true)] =
      some [{ version := ⟨0, 11, 0, false, 0, ""⟩, downloaded := false,
              current := true, indexed := true, master := false,
              localPath := "~/.zig-toolchain/tarballs/zig-linux-x86_64-0.11.0.tar.xz",
              remoteUrl := "https://ziglang.org/download/0.11.0/zig-linux-x86_64-0.11.0.tar.xz" }] := by
  decide

/-- A tarball present on disk with no matching remote entry: an Item with
indexed=false, downloaded=true. -/
def unindexedTarballItem : Item :=
  { version := ⟨0, 9, 0, false, 0, ""⟩, downloaded := true, current := false,
    indexed := false, master := false,
    localPath := "~/.zig-toolchain/tarballs/zig-linux-x86_64-0.9.0.tar.xz",
    remoteUrl := "" }

/-- C4 counterexample: calling download on an unindexed but downloaded
Item is NOT rejected fatally with "not indexed": the downloaded check runs
first and the call is a successful no-op ("Tarball already downloaded!"). -/
theorem download_unindexed_downloaded_is_noop :
    (commandDownloadItem unindexedTarballItem).1 = .alreadyDownloaded ∧
    (commandDownloadItem unindexedTarballItem).1 ≠ .fatalNotIndexed := by
  constructor <;> decide

/-- C4 (amended): the download command checks downloaded first: an Item
that is neither downloaded nor indexed is rejected fatally ("not
indexed"); an already-downloaded Item — indexed or not — short-circuits to
a successful no-op. -/
theorem commandDownloadItem_order_of_checks (it : Item) :
    (it.downloaded = false → it.indexed = false →
      (commandDownloadItem it).1 = .fatalNotIndexed) ∧
    (it.downloaded = true → (commandDownloadItem it).1 = .alreadyDownloaded) := by
  constructor
  · intro h1 h2
    simp [commandDownloadItem, h1, h2]
  · intro h1
    simp [commandDownloadItem, h1]

/-- Witness for C4's amended theorem at concrete items. -/
theorem commandDownloadItem_order_witness :
    (commandDownloadItem { unindexedTarballItem with downloaded := false }).1 =
      .fatalNotIndexed ∧
    (commandDownloadItem unindexedTarballItem).1 = .alreadyDownloaded :=
  ⟨(commandDownloadItem_order_of_checks
      { unindexedTarballItem with downloaded := false }).1 rfl rfl,
   (commandDownloadItem_order_of_checks unindexedTarballItem).2 rfl⟩

theorem foldRemoteEntry_indexed (osTag archTag : String) (items items2 : List Item)
    (k : String) (e : ZigIndexEntry)
    (h : foldRemoteEntry osTag archTag items k e = some items2)
    (hacc : ∀ it ∈ items, it.indexed = true) : ∀ it ∈ items2, it.indexed = true := by
  simp only [foldRemoteEntry] at h
  cases hfe : GetFileEntryForHost osTag archTag e with
  | none => rw [hfe] at h; cases h
  | some o =>
    rw [hfe] at h
    cases o with
    | none =>
      simp only [Option.some.injEq] at h
      subst h
      exact hacc
    | some fe =>
      cases hpv : ParseVersion (if e.version = "" then (k, false)
          else (e.version, true)).1 with
      | ok v =>
        rw [hpv] at h
        simp only [Option.some.injEq] at h
        subst h
        intro it hit
        rcases List.mem_append.mp hit with hmem | hmem
        · exact hacc it hmem
        · rw [List.mem_singleton] at hmem
          subst hmem
          rfl
      | err => rw [hpv] at h; cases h
      | crash => rw [hpv] at h; cases h

theorem foldRemote_indexed (osTag archTag : String)
    (remote : List (String × ZigIndexEntry)) (acc items2 : List Item)
    (h : foldRemote osTag archTag remote acc = some items2)
    (hacc : ∀ it ∈ acc, it.indexed = true) : ∀ it ∈ items2, it.indexed = true := by
  induction remote generalizing acc with
  | nil =>
    simp only [foldRemote, Option.some.injEq] at h
    subst h
    exact hacc
  | cons pr rest ih =>
    obtain ⟨k, e⟩ := pr
    simp only [foldRemote] at h
    cases hstep : foldRemoteEntry osTag archTag acc k e with
    | none => rw [hstep] at h; cases h
    | some acc2 =>
      rw [hstep] at h
      exact ih acc2 h (foldRemoteEntry_indexed osTag archTag acc acc2 k e hstep hacc)

theorem markDownloaded_getItem (items : List Item) (v : Version) (p : String)
    (it : Item) (h : GetItemByVersion items v = some it) :
    GetItemByVersion (markDownloaded items v p) v =
      some { it with downloaded := true, localPath := p } := by
  induction items with
  | nil => simp [GetItemByVersion] at h
  | cons hd rest ih =>
    by_cases hh : hd.version.equal v = true
    · simp only [GetItemByVersion, List.find?, hh, Option.some.injEq] at h
      subst h
      have hh2 : ({ hd with downloaded := true, localPath := p } : Item).version.equal v
          = true := hh
      simp only [markDownloaded, if_pos hh, GetItemByVersion, List.find?, hh2]
    · have hh2 : hd.version.equal v = false := by simpa using hh
      simp only [GetItemByVersion, List.find?, hh2] at h
      simp only [markDownloaded, if_neg hh, GetItemByVersion, List.find?, hh2]
      exact ih h

/-- C5: fold field precedence: a version present both in the remote index
(its Item found in the remote fold's output) and in the local tarball
directory ends up, after the tarball fold processes the discovered ".xz"
file, with indexed=true, downloaded=true, and localPath the locally
discovered tarball path rather than the URL-derived guess. -/
theorem fold_field_precedence (osTag archTag : String)
    (remote : List (String × ZigIndexEntry)) (items1 : List Item)
    (name : String) (v : Version) (it : Item)
    (hfold : foldRemote osTag archTag remote [] = some items1)
    (hfound : GetItemByVersion items1 v = some it)
    (hxz : pathExt name = ".xz")
    (hver : tarballVersion name = .ok v) :
    ∃ it2, foldTarballEntry items1 name =
        some (markDownloaded items1 v (localDirPath ["tarballs", name])) ∧
      GetItemByVersion (markDownloaded items1 v (localDirPath ["tarballs", name])) v =
        some it2 ∧
      it2.indexed = true ∧ it2.downloaded = true ∧
      it2.localPath = localDirPath ["tarballs", name] := by
  refine ⟨{ it with downloaded := true, localPath := localDirPath ["tarballs", name] },
    ?_, ?_, ?_, rfl, rfl⟩
  · simp [foldTarballEntry, hxz, hver]
  · exact markDownloaded_getItem items1 v _ it hfound
  · exact foldRemote_indexed osTag archTag remote [] items1 hfold (by simp) it
      (List.mem_of_find?_eq_some hfound)

/-- Witness for C5 at a concrete remote record and tarball file. -/
theorem fold_field_precedence_witness :
    ∃ it2, foldTarballEntry
        [{ version := ⟨0, 11, 0, false, 0, ""⟩, downloaded := false,
           current := false, indexed := true, master := false,
           localPath := "~/.zig-toolchain/tarballs/zig-linux-x86_64-0.11.0.tar.xz",
           remoteUrl := "https://ziglang.org/download/0.11.0/zig-linux-x86_64-0.11.0.tar.xz" }]
        "zig-linux-x86_64-0.11.0.tar.xz" =
        some (markDownloaded
          [{ version := ⟨0, 11, 0, false, 0, ""⟩, downloaded := false,
             current := false, indexed := true, master := false,
             localPath := "~/.zig-toolchain/tarballs/zig-linux-x86_64-0.11.0.tar.xz",
             remoteUrl := "https://ziglang.org/download/0.11.0/zig-linux-x86_64-0.11.0.tar.xz" }]
          ⟨0, 11, 0, false, 0, ""⟩
          (localDirPath ["tarballs", "zig-linux-x86_64-0.11.0.tar.xz"])) ∧
      GetItemByVersion (markDownloaded
          [{ version := ⟨0, 11, 0, false, 0, ""⟩, downloaded := false,
             current := false, indexed := true, master := false,
             localPath := "~/.zig-toolchain/tarballs/zig-linux-x86_64-0.11.0.tar.xz",
             remoteUrl := "https://ziglang.org/download/0.11.0/zig-linux-x86_64-0.11.0.tar.xz" }]
          ⟨0, 11, 0, false, 0, ""⟩
          (localDirPath ["tarballs", "zig-linux-x86_64-0.11.0.tar.xz"]))
        ⟨0, 11, 0, false, 0, ""⟩ = some it2 ∧
      it2.indexed = true ∧ it2.downloaded = true ∧
      it2.localPath = localDirPath ["tarballs", "zig-linux-x86_64-0.11.0.tar.xz"] :=
  fold_field_precedence "linux" "x86-64" [("0.11.0", releaseRecord)]
    [{ version := ⟨0, 11, 0, false, 0, ""⟩, downloaded := false,
       current := false, indexed := true, master := false,
       localPath := "~/.zig-toolchain/tarballs/zig-linux-x86_64-0.11.0.tar.xz",
       remoteUrl := "https://ziglang.org/download/0.11.0/zig-linux-x86_64-0.11.0.tar.xz" }]
    "zig-linux-x86_64-0.11.0.tar.xz" ⟨0, 11, 0, false, 0, ""⟩
    { version := ⟨0, 11, 0, false, 0, ""⟩, downloaded := false,
      current := false, indexed := true, master := false,
      localPath := "~/.zig-toolchain/tarballs/zig-linux-x86_64-0.11.0.tar.xz",
      remoteUrl := "https://ziglang.org/download/0.11.0/zig-linux-x86_64-0.11.0.tar.xz" }
    (by decide) (by decide) (by decide) (by decide)
